import Mathlib

/-!
# Verification of the valg2025 bias-estimation and aggregation engine

Shallow embedding of the core of the `kjetilbk/valg2025` repository:

* `calculateBenchmarkForPoll` / `calculateHouseEffects` (src/combinedVisualization.ts),
* `calculateTimeDecayedHouseEffects` with its helpers `calculatePollHouseEffect`
  and `aggregateWithDecay` (src/timeDecayedHouseEffects.ts),
* `applyHouseEffects` (src/houseEffectAdjustment.ts),
* `calculateWeight` / `calculateCurrentAverage` / `calculateAverageForPolls`
  (src/pollingAverages.ts).

Modelling conventions:

* TypeScript `number` values carried by polls are modelled as `ℚ`.  A party
  value that is `undefined` (or `NaN`, which every reading site treats the same
  way as `undefined`) is modelled as `none : Option ℚ`.
* `Date.getTime()` timestamps are milliseconds, modelled as `ℚ`; the code's
  `24 * 60 * 60 * 1000` factor is `dayMs`.
* A `Record<PartyName, number>` is a finite map over the fixed ten-party
  enumeration; it is modelled as the ten-field structure `PartyMap` so that
  equality of maps is decidable.  `PartyMap.ofFun` corresponds to the source's
  `for (const party of PARTY_NAMES) { m[party] = ... }` construction pattern.
* JavaScript arithmetic on possibly-`undefined`/`NaN` values (only exercised by
  `calculatePollHouseEffect`, which sums `poll.parties[party]` without a
  definedness check) is modelled by the `none`-propagating operations `jsAdd`
  and `jsSub`: `undefined + x` and `NaN + x` are both `NaN`, i.e. `none`.
* `Math.pow(0.5, e)` on floating-point numbers has, for a rational exponent, no
  exact rational value, so the decay primitive is threaded through as an
  explicit function parameter (`powHalf` / `weightOfAge`).  The only
  configuration the claims evaluate concretely is `decayHalfLifeDays =
  Infinity`, where JavaScript gives `ageDays / Infinity = 0` and
  `Math.pow(0.5, 0) = 1`, i.e. the constant-one function `oneWeight`.
-/

namespace Valg

/-- The fixed, closed party enumeration `PartyName` of src/types.ts. -/
inductive PartyName : Type
  | Ap | Hoyre | Frp | SV | Sp | KrF | Venstre | MDG | Rodt | Andre
deriving DecidableEq

/-- `PARTY_NAMES` of src/types.ts, in its declaration order. -/
def PARTY_NAMES : List PartyName :=
  [.Ap, .Hoyre, .Frp, .SV, .Sp, .KrF, .Venstre, .MDG, .Rodt, .Andre]

/-- A `Record<PartyName, number>` with possibly missing (`undefined`/`NaN`)
entries: one optional rational per party. -/
structure PartyMap : Type where
  ap : Option ℚ
  hoyre : Option ℚ
  frp : Option ℚ
  sv : Option ℚ
  sp : Option ℚ
  krf : Option ℚ
  venstre : Option ℚ
  mdg : Option ℚ
  rodt : Option ℚ
  andre : Option ℚ
deriving DecidableEq

/-- Read one entry of a `PartyMap`. -/
def PartyMap.get (m : PartyMap) : PartyName → Option ℚ
  | .Ap => m.ap
  | .Hoyre => m.hoyre
  | .Frp => m.frp
  | .SV => m.sv
  | .Sp => m.sp
  | .KrF => m.krf
  | .Venstre => m.venstre
  | .MDG => m.mdg
  | .Rodt => m.rodt
  | .Andre => m.andre

/-- Build a `PartyMap` by assigning every party, the shape of the source's
`for (const party of PARTY_NAMES) { m[party] = f(party) }` loops. -/
def PartyMap.ofFun (f : PartyName → Option ℚ) : PartyMap :=
  { ap := f .Ap, hoyre := f .Hoyre, frp := f .Frp, sv := f .SV, sp := f .Sp,
    krf := f .KrF, venstre := f .Venstre, mdg := f .MDG, rodt := f .Rodt,
    andre := f .Andre }

theorem PartyMap.get_ofFun (f : PartyName → Option ℚ) (party : PartyName) :
    (PartyMap.ofFun f).get party = f party := by
  cases party <;> rfl

theorem PartyMap.ext_get {m m' : PartyMap}
    (h : ∀ party, m.get party = m'.get party) : m = m' := by
  cases m; cases m'
  have ha := h .Ap; have hh := h .Hoyre; have hf := h .Frp; have hs := h .SV
  have hp := h .Sp; have hk := h .KrF; have hv := h .Venstre; have hm := h .MDG
  have hr := h .Rodt; have hn := h .Andre
  simp only [PartyMap.get] at ha hh hf hs hp hk hv hm hr hn
  simp_all

/-- The `24 * 60 * 60 * 1000` milliseconds-per-day factor used throughout. -/
def dayMs : ℚ := 24 * 60 * 60 * 1000

/-- A `ParsedPoll` of src/types.ts, restricted to the fields the engine reads:
the pollster (`house`), `parsedDate.getTime()` (`time`, in ms) and the party
values.  The other fields (`date` string, `month`, `year`, `day`) are only used
for rendering. -/
structure ParsedPoll : Type where
  house : String
  time : ℚ
  parties : PartyMap
deriving DecidableEq

/-- Average of the defined values of a list of optional values: the shape
`values.filter(v => v !== undefined && !isNaN(v))` followed by
`reduce((s, v) => s + v, 0) / length`, with the entry left absent when no
value is defined. -/
def averageDefined (values : List (Option ℚ)) : Option ℚ :=
  let defined := values.filterMap id
  if 0 < defined.length then some (defined.sum / defined.length) else none

/-- The window filter `allPolls.filter(p => |p.getTime() - targetTime| <= windowMs)`
of `calculateBenchmarkForPoll`. -/
def withinWindow (targetTime windowMs : ℚ) (allPolls : List ParsedPoll) :
    List ParsedPoll :=
  allPolls.filter (fun poll => |poll.time - targetTime| ≤ windowMs)

/-- The per-party averaging loop at the end of `calculateBenchmarkForPoll`
(src/combinedVisualization.ts): for each party, the mean of the defined values
among the selected window polls. -/
def benchmarkAverages (windowPolls : List ParsedPoll) : PartyMap :=
  PartyMap.ofFun fun party =>
    averageDefined (windowPolls.map (fun poll => poll.parties.get party))

/-- The window-widening selection of `calculateBenchmarkForPoll`
(src/combinedVisualization.ts): the polls within `windowDays` of the target;
if fewer than `minPolls`, those within a fixed 28-day window; if still fewer
than `minPolls`, those within a 42-day window. -/
def benchmarkSelection (targetPoll : ParsedPoll) (allPolls : List ParsedPoll)
    (windowDays : ℚ) (minPolls : ℕ) : List ParsedPoll :=
  let targetTime := targetPoll.time
  let firstPolls := withinWindow targetTime (windowDays * dayMs) allPolls
  if firstPolls.length < minPolls then
    let expanded := withinWindow targetTime (28 * dayMs) allPolls
    if expanded.length < minPolls then
      withinWindow targetTime (42 * dayMs) allPolls
    else expanded
  else firstPolls

/-- `calculateBenchmarkForPoll` (src/combinedVisualization.ts): widen the
selection as in `benchmarkSelection`; return `null` when the final selection
is empty, and otherwise the per-party averages over it. -/
def calculateBenchmarkForPoll (targetPoll : ParsedPoll)
    (allPolls : List ParsedPoll) (windowDays : ℚ := 14) (minPolls : ℕ := 5) :
    Option PartyMap :=
  let windowPolls := benchmarkSelection targetPoll allPolls windowDays minPolls
  if windowPolls.length = 0 then none
  else some (benchmarkAverages windowPolls)

/-- The deviation computation of `calculateHouseEffects`: per party,
`poll.parties[party] - benchmark[party]` whenever the benchmark exists and both
entries are defined, absent otherwise. -/
def pollDeviations (poll : ParsedPoll) (benchmark : Option PartyMap) :
    PartyMap :=
  PartyMap.ofFun fun party =>
    match benchmark with
    | none => none
    | some b =>
      match poll.parties.get party, b.get party with
      | some pollValue, some benchmarkValue => some (pollValue - benchmarkValue)
      | _, _ => none

/-- A `HouseEffect` of src/types.ts: the per-party average deviations plus the
`pollCount` key. -/
structure HouseEffect : Type where
  pollCount : ℕ
  effects : PartyMap
deriving DecidableEq

/-- `calculateHouseEffects` (src/combinedVisualization.ts), viewed as the map
from a house name to its entry in the returned object: each poll's deviations
from its rolling benchmark are grouped by house, and per house and party the
effect is the mean of the defined deviations; a house appears exactly when it
has at least one poll.  (The source computes the deviations of all polls first
and then groups them; filtering the polls by house first yields the same list
of per-poll deviation records for each house.) -/
def calculateHouseEffects (polls : List ParsedPoll) :
    String → Option HouseEffect := fun house =>
  let housePolls := polls.filter (fun poll => poll.house = house)
  let deviations := housePolls.map
    (fun poll => pollDeviations poll (calculateBenchmarkForPoll poll polls))
  if housePolls.length = 0 then none
  else some
    { pollCount := housePolls.length
      effects := PartyMap.ofFun fun party =>
        averageDefined (deviations.map (fun d => d.get party)) }

/-- JavaScript `+` on possibly-`undefined`/`NaN` numbers: any undefined or NaN
operand poisons the result (`none`). -/
def jsAdd : Option ℚ → Option ℚ → Option ℚ
  | some a, some b => some (a + b)
  | _, _ => none

/-- JavaScript `-` on possibly-`undefined`/`NaN` numbers. -/
def jsSub : Option ℚ → Option ℚ → Option ℚ
  | some a, some b => some (a - b)
  | _, _ => none

/-- The window selection of `calculatePollHouseEffect`
(src/timeDecayedHouseEffects.ts): the polls within `windowDays` of the target,
excluding the target itself; if that is empty, the target alone.  The source
excludes the target by object identity (`poll !== targetPoll`), which the
embedding renders by the target's position in the poll list. -/
def decayedWindow (targetIdx : ℕ) (targetPoll : ParsedPoll)
    (allPolls : List ParsedPoll) (windowDays : ℚ) : List ParsedPoll :=
  let targetTime := targetPoll.time
  let windowMs := windowDays * dayMs
  let windowPolls := (allPolls.enum.filter (fun ip =>
    |ip.2.time - targetTime| ≤ windowMs ∧ ip.1 ≠ targetIdx)).map (fun ip => ip.2)
  if windowPolls.length = 0 then [targetPoll] else windowPolls

/-- The benchmark loop of `calculatePollHouseEffect`: per party,
`sum += poll.parties[party]` over the window with NO definedness check
(a missing entry makes the sum `NaN`, i.e. `none`), divided by the window
length. -/
def decayedBenchmark (windowPolls : List ParsedPoll) : PartyMap :=
  PartyMap.ofFun fun party =>
    (windowPolls.foldl (fun s poll => jsAdd s (poll.parties.get party))
      (some 0)).map (fun s => s / windowPolls.length)

/-- `calculatePollHouseEffect` (src/timeDecayedHouseEffects.ts): the target
poll's per-party difference from the simple average over its window. -/
def calculatePollHouseEffect (targetIdx : ℕ) (targetPoll : ParsedPoll)
    (allPolls : List ParsedPoll) (windowDays : ℚ) : PartyMap :=
  let windowPolls := decayedWindow targetIdx targetPoll allPolls windowDays
  let benchmark := decayedBenchmark windowPolls
  PartyMap.ofFun fun party =>
    jsSub (targetPoll.parties.get party) (benchmark.get party)

/-- `Math.max(...polls.map(p => p.parsedDate.getTime()))`, the shared
reference point of `calculateTimeDecayedHouseEffects` (only read when the poll
list is non-empty, so the `0` seed is never returned). -/
def mostRecentTime (polls : List ParsedPoll) : ℚ :=
  (polls.map (fun p => p.time)).foldl max 0

/-- One entry of the `estimates` array of `calculateTimeDecayedHouseEffects`. -/
structure Estimate : Type where
  estimate : PartyMap
  weight : ℚ
  age : ℚ
deriving DecidableEq

/-- The `estimates` collection of `calculateTimeDecayedHouseEffects` for one
house: one per-poll effect per poll of that house, with the decay weight of its
age.  `weightOfAge` models `ageDays => Math.pow(0.5, ageDays / decayHalfLifeDays)`
(see the module docstring); `mostRecent` is the shared
`Math.max(...polls.map(p => p.parsedDate.getTime()))` reference point. -/
def decayedEstimates (polls : List ParsedPoll) (weightOfAge : ℚ → ℚ)
    (windowDays : ℚ) (mostRecent : ℚ) (house : String) : List Estimate :=
  (polls.enum.filter (fun ip => ip.2.house = house)).map fun ip =>
    let ageDays := (mostRecent - ip.2.time) / dayMs
    { estimate := calculatePollHouseEffect ip.1 ip.2 polls windowDays
      weight := weightOfAge ageDays
      age := ageDays }

/-- The aggregate produced by `aggregateWithDecay`. -/
structure DecayAggregate : Type where
  parties : PartyMap
  effectiveAge : ℚ
  totalWeight : ℚ
deriving DecidableEq

/-- `aggregateWithDecay` (src/timeDecayedHouseEffects.ts): starting from 0 per
party, accumulate `estimate[party] * weight` (JavaScript arithmetic, so a `NaN`
estimate poisons the accumulator), and divide by the total weight when it is
positive; `effectiveAge` is the weighted mean age. -/
def aggregateWithDecay (estimates : List Estimate) : DecayAggregate :=
  let totalWeight := (estimates.map (fun e => e.weight)).sum
  let weightedAgeSum := (estimates.map (fun e => e.age * e.weight)).sum
  let partiesRaw : PartyName → Option ℚ := fun party =>
    estimates.foldl
      (fun s e => jsAdd s ((e.estimate.get party).map (fun v => v * e.weight)))
      (some 0)
  { parties := PartyMap.ofFun fun party =>
      if 0 < totalWeight then (partiesRaw party).map (fun v => v / totalWeight)
      else partiesRaw party
    effectiveAge := if 0 < totalWeight then weightedAgeSum / totalWeight else 0
    totalWeight := totalWeight }

/-- An `EnhancedHouseEffect` of src/timeDecayedHouseEffects.ts. -/
structure EnhancedHouseEffect : Type where
  parties : PartyMap
  pollCount : ℕ
  effectiveAge : ℚ
  totalWeight : ℚ
deriving DecidableEq

/-- `calculateTimeDecayedHouseEffects` (src/timeDecayedHouseEffects.ts), viewed
as the map from a house name to its entry: a house appears exactly when it has
at least one poll, and its entry aggregates the decay-weighted per-poll
effects.  The decay weight `Math.pow(0.5, ageDays / decayHalfLifeDays)` is
threaded as `weightOfAge`; `decayHalfLifeDays = Infinity` corresponds to
`weightOfAge = oneWeight` below. -/
def calculateTimeDecayedHouseEffects (polls : List ParsedPoll)
    (weightOfAge : ℚ → ℚ) (windowDays : ℚ := 21) :
    String → Option EnhancedHouseEffect := fun house =>
  let estimates := decayedEstimates polls weightOfAge windowDays
    (mostRecentTime polls) house
  if estimates.length = 0 then none
  else
    let aggregated := aggregateWithDecay estimates
    some
      { parties := aggregated.parties
        pollCount := estimates.length
        effectiveAge := aggregated.effectiveAge
        totalWeight := aggregated.totalWeight }

/-- The uniform weight that `Math.pow(0.5, ageDays / decayHalfLifeDays)`
degenerates to at `decayHalfLifeDays = Infinity` (in JavaScript,
`ageDays / Infinity = 0` and `Math.pow(0.5, 0) = 1`). -/
def oneWeight : ℚ → ℚ := fun _ => 1

/-- An `AdjustedPoll` of src/types.ts, restricted as in `ParsedPoll`. -/
structure AdjustedPoll : Type where
  house : String
  time : ℚ
  parties : PartyMap
  originalParties : PartyMap
  adjustments : PartyMap
deriving DecidableEq

/-- The per-poll body of `applyHouseEffects` (src/houseEffectAdjustment.ts):
when the poll's house has a recorded effect, subtract the effect from every
party value where both the effect and the value are defined, recording the
negated effect as the adjustment; all other party values are copied through
unchanged, and a house without a recorded effect yields an empty adjustment
map. -/
def applyOne (houseEffects : String → Option HouseEffect)
    (poll : ParsedPoll) : AdjustedPoll :=
  match houseEffects poll.house with
  | none =>
    { house := poll.house, time := poll.time, parties := poll.parties
      originalParties := poll.parties, adjustments := PartyMap.ofFun fun _ => none }
  | some houseEffect =>
    { house := poll.house
      time := poll.time
      parties := PartyMap.ofFun fun party =>
        match houseEffect.effects.get party, poll.parties.get party with
        | some effect, some value => some (value - effect)
        | _, _ => poll.parties.get party
      originalParties := poll.parties
      adjustments := PartyMap.ofFun fun party =>
        match houseEffect.effects.get party, poll.parties.get party with
        | some effect, some _ => some (-effect)
        | _, _ => none }

/-- `applyHouseEffects` (src/houseEffectAdjustment.ts): `polls.map` of
`applyOne`. -/
def applyHouseEffects (polls : List ParsedPoll)
    (houseEffects : String → Option HouseEffect) : List AdjustedPoll :=
  polls.map (applyOne houseEffects)

/-- The `WeightingMethod` union of src/pollingAverages.ts. -/
inductive WeightingMethod : Type
  | uniform | linear | exponential | quadratic
deriving DecidableEq

/-- `calculateWeight` (src/pollingAverages.ts).  The source's `'none'` case is
named `uniform` here.  `powHalf` models `x => Math.pow(0.5, x)` (see the module
docstring); the source's unreachable `default: return 1.0` branch has no
counterpart because the method enumeration is closed. -/
def calculateWeight (pollAgeDays : ℚ) (method : WeightingMethod)
    (maxDays : ℚ) (halfLife : ℚ) (powHalf : ℚ → ℚ) : ℚ :=
  match method with
  | .uniform => 1
  | .linear => max 0 ((maxDays - pollAgeDays) / maxDays)
  | .exponential => powHalf (pollAgeDays / halfLife)
  | .quadratic => (max 0 ((maxDays - pollAgeDays) / maxDays)) ^ 2

/-- The per-party step of `calculateAverageForPolls`: keep the (value, weight)
pairs whose value is defined, and when any remain return
`Σ (value · weight) / Σ weight` over them. -/
def partyWeightedAverage (items : List (Option ℚ × ℚ)) : Option ℚ :=
  let pollValues := items.filterMap (fun item => item.1.map (fun v => (v, item.2)))
  if 0 < pollValues.length then
    some ((pollValues.map (fun iv => iv.1 * iv.2)).sum
      / (pollValues.map (fun iv => iv.2)).sum)
  else none

/-- First-occurrence deduplication, the order `Array.from(new Set(xs))`
produces. -/
def uniqueFirst (xs : List String) : List String :=
  xs.foldl (fun acc x => if x ∈ acc then acc else acc ++ [x]) []

/-- A `PollingAverage` of src/types.ts, restricted to the fields with numeric
content (`date`/`timeSpan` are formatted display strings). -/
structure PollingAverage : Type where
  time : ℚ
  pollCount : ℕ
  parties : PartyMap
  houses : List String
deriving DecidableEq

/-- `calculateAverageForPolls` (src/pollingAverages.ts): weight every poll by
its age relative to `metaTime` (the `metadata.parsedDate` argument), and
per party average the defined values with those weights. -/
def calculateAverageForPolls (polls : List AdjustedPoll) (metaTime : ℚ)
    (weighting : WeightingMethod) (maxDays : ℚ) (halfLife : ℚ)
    (powHalf : ℚ → ℚ) : PollingAverage :=
  let pollsWithWeights := polls.map fun poll =>
    let ageDays := (metaTime - poll.time) / dayMs
    (poll, calculateWeight ageDays weighting maxDays halfLife powHalf)
  { time := metaTime
    pollCount := polls.length
    parties := PartyMap.ofFun fun party =>
      partyWeightedAverage (pollsWithWeights.map
        (fun pw => (pw.1.parties.get party, pw.2)))
    houses := uniqueFirst (polls.map (fun p => p.house)) }

/-- The maximum poll timestamp, i.e. `sortedPolls[0].parsedDate` after the
descending sort in `calculateCurrentAverage` (0 for an empty list, which the
source never reaches). -/
def latestTime : List AdjustedPoll → ℚ
  | [] => 0
  | p :: ps => (ps.map (fun q => q.time)).foldl max p.time

/-- `calculateCurrentAverage` (src/pollingAverages.ts): `null` on empty input;
otherwise select the polls within `days` of the latest poll date and average
them with `calculateAverageForPolls`, returning `null` when none qualify.
The source sorts the polls by descending date before filtering; the selection
here keeps the input order, which leaves every computed field unchanged except
the order (not the membership) of the `houses` list. -/
def calculateCurrentAverage (adjustedPolls : List AdjustedPoll) (days : ℚ := 14)
    (weighting : WeightingMethod := .uniform) (halfLife : ℚ := 7)
    (powHalf : ℚ → ℚ := oneWeight) : Option PollingAverage :=
  -- the `powHalf` default is only a placeholder; it is irrelevant to every
  -- non-`exponential` weighting, the only ones evaluated concretely below
  if adjustedPolls.length = 0 then none
  else
    let latestDate := latestTime adjustedPolls
    let cutoffDate := latestDate - days * dayMs
    let recentPolls := adjustedPolls.filter (fun poll => cutoffDate ≤ poll.time)
    if recentPolls.length = 0 then none
    else some
      (calculateAverageForPolls recentPolls latestDate weighting days halfLife powHalf)

/-! ## Helper lemmas -/

theorem withinWindow_eq_nil_of_le {targetTime b c : ℚ} {polls : List ParsedPoll}
    (hbc : b ≤ c) (h : withinWindow targetTime c polls = []) :
    withinWindow targetTime b polls = [] := by
  rw [withinWindow, List.filter_eq_nil_iff] at h ⊢
  intro poll hmem
  have := h poll hmem
  simp only [decide_eq_true_eq] at this ⊢
  exact fun hb => this (hb.trans hbc)

theorem benchmarkSelection_of_first (targetPoll : ParsedPoll)
    (allPolls : List ParsedPoll) (windowDays : ℚ) (minPolls : ℕ)
    (h : minPolls ≤ (withinWindow targetPoll.time (windowDays * dayMs) allPolls).length) :
    benchmarkSelection targetPoll allPolls windowDays minPolls =
      withinWindow targetPoll.time (windowDays * dayMs) allPolls := by
  rw [benchmarkSelection]
  simp only [if_neg (Nat.not_lt.mpr h)]

theorem benchmarkSelection_of_expanded (targetPoll : ParsedPoll)
    (allPolls : List ParsedPoll) (windowDays : ℚ) (minPolls : ℕ)
    (h1 : (withinWindow targetPoll.time (windowDays * dayMs) allPolls).length < minPolls)
    (h2 : minPolls ≤ (withinWindow targetPoll.time (28 * dayMs) allPolls).length) :
    benchmarkSelection targetPoll allPolls windowDays minPolls =
      withinWindow targetPoll.time (28 * dayMs) allPolls := by
  rw [benchmarkSelection]
  simp only [if_pos h1, if_neg (Nat.not_lt.mpr h2)]

theorem benchmarkSelection_of_max (targetPoll : ParsedPoll)
    (allPolls : List ParsedPoll) (windowDays : ℚ) (minPolls : ℕ)
    (h1 : (withinWindow targetPoll.time (windowDays * dayMs) allPolls).length < minPolls)
    (h2 : (withinWindow targetPoll.time (28 * dayMs) allPolls).length < minPolls) :
    benchmarkSelection targetPoll allPolls windowDays minPolls =
      withinWindow targetPoll.time (42 * dayMs) allPolls := by
  rw [benchmarkSelection]
  simp only [if_pos h1, if_pos h2]

theorem calculateBenchmarkForPoll_of_ne_nil (targetPoll : ParsedPoll)
    (allPolls : List ParsedPoll) (windowDays : ℚ) (minPolls : ℕ)
    (h : benchmarkSelection targetPoll allPolls windowDays minPolls ≠ []) :
    calculateBenchmarkForPoll targetPoll allPolls windowDays minPolls =
      some (benchmarkAverages (benchmarkSelection targetPoll allPolls windowDays minPolls)) := by
  rw [calculateBenchmarkForPoll]
  simp only [if_neg (fun hz => h (List.length_eq_zero.mp hz))]

theorem mem_withinWindow_self {target : ParsedPoll} {polls : List ParsedPoll}
    {windowMs : ℚ} (hmem : target ∈ polls) (hw : 0 ≤ windowMs) :
    target ∈ withinWindow target.time windowMs polls := by
  rw [withinWindow, List.mem_filter]
  refine ⟨hmem, ?_⟩
  simpa using hw

/-! ## Claims about the rolling benchmark (§4.1) -/

/-- **C1.** The rolling benchmark with `windowDays = 14`, `minObservations = 5`
selects the observations within 14 days of the target (inclusive); if fewer
than 5 are selected it re-selects with a fixed 28-day window, and if still
fewer than 5 with a 42-day window and widens no further; it returns the
per-category means over the selected set, and returns `null` exactly when the
widest (42-day) window holds no observation.  In particular, with fewer than 5
observations within 14 days but at least 5 within 28, the averages are taken
over exactly the 28-day selection. -/
theorem C1_rolling_benchmark_window_policy (targetPoll : ParsedPoll)
    (allPolls : List ParsedPoll) :
    (5 ≤ (withinWindow targetPoll.time (14 * dayMs) allPolls).length →
      calculateBenchmarkForPoll targetPoll allPolls 14 5 =
        some (benchmarkAverages (withinWindow targetPoll.time (14 * dayMs) allPolls)))
    ∧ ((withinWindow targetPoll.time (14 * dayMs) allPolls).length < 5 →
        5 ≤ (withinWindow targetPoll.time (28 * dayMs) allPolls).length →
      calculateBenchmarkForPoll targetPoll allPolls 14 5 =
        some (benchmarkAverages (withinWindow targetPoll.time (28 * dayMs) allPolls)))
    ∧ ((withinWindow targetPoll.time (14 * dayMs) allPolls).length < 5 →
        (withinWindow targetPoll.time (28 * dayMs) allPolls).length < 5 →
      calculateBenchmarkForPoll targetPoll allPolls 14 5 =
        (if (withinWindow targetPoll.time (42 * dayMs) allPolls).length = 0 then none
         else some (benchmarkAverages (withinWindow targetPoll.time (42 * dayMs) allPolls))))
    ∧ (calculateBenchmarkForPoll targetPoll allPolls 14 5 = none ↔
        withinWindow targetPoll.time (42 * dayMs) allPolls = []) := by
  have h1442 : (14 : ℚ) * dayMs ≤ 42 * dayMs := by rw [dayMs]; norm_num
  have h2842 : (28 : ℚ) * dayMs ≤ 42 * dayMs := by rw [dayMs]; norm_num
  refine ⟨?_, ?_, ?_, ?_⟩
  · intro h5
    have hsel := benchmarkSelection_of_first targetPoll allPolls 14 5 h5
    have hne : benchmarkSelection targetPoll allPolls 14 5 ≠ [] := by
      rw [hsel]
      intro hnil
      rw [hnil] at h5
      simp at h5
    rw [calculateBenchmarkForPoll_of_ne_nil targetPoll allPolls 14 5 hne, hsel]
  · intro h14 h28
    have hsel := benchmarkSelection_of_expanded targetPoll allPolls 14 5 h14 h28
    have hne : benchmarkSelection targetPoll allPolls 14 5 ≠ [] := by
      rw [hsel]
      intro hnil
      rw [hnil] at h28
      simp at h28
    rw [calculateBenchmarkForPoll_of_ne_nil targetPoll allPolls 14 5 hne, hsel]
  · intro h14 h28
    have hsel := benchmarkSelection_of_max targetPoll allPolls 14 5 h14 h28
    rw [calculateBenchmarkForPoll, hsel]
  · constructor
    · intro hnone
      rw [calculateBenchmarkForPoll] at hnone
      by_cases hz : (benchmarkSelection targetPoll allPolls 14 5).length = 0
      · have hnil := List.length_eq_zero.mp hz
        by_contra h42ne
        have h42pos : (withinWindow targetPoll.time (42 * dayMs) allPolls).length ≠ 0 :=
          fun hc => h42ne (List.length_eq_zero.mp hc)
        rw [benchmarkSelection] at hnil
        by_cases h14 : (withinWindow targetPoll.time (14 * dayMs) allPolls).length < 5
        · by_cases h28 : (withinWindow targetPoll.time (28 * dayMs) allPolls).length < 5
          · simp only [if_pos h14, if_pos h28] at hnil
            exact h42ne hnil
          · simp only [if_pos h14, if_neg h28] at hnil
            rw [hnil] at h28
            simp at h28
        · simp only [if_neg h14] at hnil
          rw [hnil] at h14
          simp at h14
      · simp only [if_neg hz] at hnone
        exact absurd hnone (by simp)
    · intro h42
      have h28 := withinWindow_eq_nil_of_le h2842 h42
      have h14 := withinWindow_eq_nil_of_le h1442 h42
      rw [calculateBenchmarkForPoll, benchmarkSelection]
      simp only [h14, h28, h42, List.length_nil, if_pos (by norm_num : (0:ℕ) < 5)]
      simp

/-- A party map holding only an `Ap` entry, used to build the concrete
examples below. -/
def pmAp (v : Option ℚ) : PartyMap :=
  PartyMap.ofFun fun p => match p with | .Ap => v | _ => none

/-- A party map holding only `Ap` and `Hoyre` entries. -/
def pmApH (a h : Option ℚ) : PartyMap :=
  PartyMap.ofFun fun p => match p with | .Ap => a | .Hoyre => h | _ => none

/-- Concrete target for the C1 witness. -/
def tC1 : ParsedPoll := ⟨"T", 0, pmAp (some 10)⟩

/-- Concrete poll collection for the C1 witness: one poll at day 0 and four at
day 20, so that 1 poll lies within 14 days of the target and 5 within 28. -/
def exC1 : List ParsedPoll :=
  [tC1, ⟨"A", 20 * dayMs, pmAp (some 20)⟩, ⟨"B", 20 * dayMs, pmAp (some 30)⟩,
   ⟨"C", 20 * dayMs, pmAp (some 40)⟩, ⟨"D", 20 * dayMs, pmAp (some 50)⟩]

/-- Witness for C1: on `exC1` the 14-day window is too small, the 28-day
window suffices, and the benchmark is the average over the 28-day selection. -/
theorem C1_rolling_benchmark_window_policy_witness :
    (withinWindow tC1.time (14 * dayMs) exC1).length < 5
    ∧ 5 ≤ (withinWindow tC1.time (28 * dayMs) exC1).length
    ∧ calculateBenchmarkForPoll tC1 exC1 14 5 =
        some (benchmarkAverages (withinWindow tC1.time (28 * dayMs) exC1)) :=
  ⟨by norm_num [withinWindow, tC1, exC1, dayMs, List.filter],
   by norm_num [withinWindow, tC1, exC1, dayMs, List.filter],
   (C1_rolling_benchmark_window_policy tC1 exC1).2.1
     (by norm_num [withinWindow, tC1, exC1, dayMs, List.filter])
     (by norm_num [withinWindow, tC1, exC1, dayMs, List.filter])⟩

/-- **C10.** For a target that is an element of the supplied collection and a
non-negative window, the rolling benchmark never returns `null`: the target
lies in every window it is compared against, so each candidate selection is
non-empty. -/
theorem C10_benchmark_of_member_never_null (targetPoll : ParsedPoll)
    (allPolls : List ParsedPoll) (windowDays : ℚ) (minPolls : ℕ)
    (hmem : targetPoll ∈ allPolls) (hw : 0 ≤ windowDays) :
    calculateBenchmarkForPoll targetPoll allPolls windowDays minPolls ≠ none := by
  have hday : (0 : ℚ) ≤ dayMs := by rw [dayMs]; norm_num
  have hfirst : targetPoll ∈ withinWindow targetPoll.time (windowDays * dayMs) allPolls :=
    mem_withinWindow_self hmem (mul_nonneg hw hday)
  have h28 : targetPoll ∈ withinWindow targetPoll.time (28 * dayMs) allPolls :=
    mem_withinWindow_self hmem (by rw [dayMs]; norm_num)
  have h42 : targetPoll ∈ withinWindow targetPoll.time (42 * dayMs) allPolls :=
    mem_withinWindow_self hmem (by rw [dayMs]; norm_num)
  have hsel : targetPoll ∈ benchmarkSelection targetPoll allPolls windowDays minPolls := by
    rw [benchmarkSelection]
    by_cases hc1 : (withinWindow targetPoll.time (windowDays * dayMs) allPolls).length < minPolls
    · by_cases hc2 : (withinWindow targetPoll.time (28 * dayMs) allPolls).length < minPolls
      · simp only [if_pos hc1, if_pos hc2]
        exact h42
      · simp only [if_pos hc1, if_neg hc2]
        exact h28
    · simp only [if_neg hc1]
      exact hfirst
  rw [calculateBenchmarkForPoll_of_ne_nil targetPoll allPolls windowDays minPolls
    (List.ne_nil_of_mem hsel)]
  simp

/-- Witness for C10: the benchmark of the first poll of `exC1` inside `exC1`
is not `null`. -/
theorem C10_benchmark_of_member_never_null_witness :
    calculateBenchmarkForPoll tC1 exC1 14 5 ≠ none :=
  C10_benchmark_of_member_never_null tC1 exC1 14 5 (by simp [exC1]) (by norm_num)

/-! ## Claims about the bias corrector (§4.4) -/

/-- **C3.** Every observation produced by `applyHouseEffects` satisfies: for
each category defined in both the observation and its source's effect map, the
recorded adjustment is the negated effect and the corrected value is the
original value plus that adjustment; and for every category with a recorded
adjustment, `categories[c] = originalCategories[c] + adjustments[c]` holds
exactly. -/
theorem C3_bias_correction_round_trip (polls : List ParsedPoll)
    (houseEffects : String → Option HouseEffect) (adjPoll : AdjustedPoll)
    (hmem : adjPoll ∈ applyHouseEffects polls houseEffects) (party : PartyName) :
    (∀ he effect value, houseEffects adjPoll.house = some he →
      he.effects.get party = some effect →
      adjPoll.originalParties.get party = some value →
      adjPoll.adjustments.get party = some (-effect) ∧
        adjPoll.parties.get party = some (value + -effect))
    ∧ (∀ adj value, adjPoll.adjustments.get party = some adj →
        adjPoll.originalParties.get party = some value →
        adjPoll.parties.get party = some (value + adj)) := by
  rw [applyHouseEffects] at hmem
  obtain ⟨poll, hpoll, rfl⟩ := List.mem_map.mp hmem
  cases hhe : houseEffects poll.house with
  | none =>
    have hshape : applyOne houseEffects poll =
        { house := poll.house, time := poll.time, parties := poll.parties
          originalParties := poll.parties
          adjustments := PartyMap.ofFun fun _ => none } := by
      rw [applyOne, hhe]
    rw [hshape]
    constructor
    · intro he effect value hsome
      simp only [hhe] at hsome
      exact absurd hsome (by simp)
    · intro adj value hadj
      rw [PartyMap.get_ofFun] at hadj
      exact absurd hadj (by simp)
  | some he' =>
    have hshape : applyOne houseEffects poll =
        { house := poll.house
          time := poll.time
          parties := PartyMap.ofFun fun party =>
            match he'.effects.get party, poll.parties.get party with
            | some effect, some value => some (value - effect)
            | _, _ => poll.parties.get party
          originalParties := poll.parties
          adjustments := PartyMap.ofFun fun party =>
            match he'.effects.get party, poll.parties.get party with
            | some effect, some _ => some (-effect)
            | _, _ => none } := by
      rw [applyOne, hhe]
    rw [hshape]
    constructor
    · intro he effect value hsome heff horig
      simp only [hhe, Option.some.injEq] at hsome
      subst hsome
      simp only [PartyMap.get_ofFun] at horig ⊢
      cases hget : he'.effects.get party with
      | none => rw [hget] at heff; exact absurd heff (by simp)
      | some effect' =>
        rw [hget] at heff
        cases heff
        cases hval : poll.parties.get party with
        | none => rw [hval] at horig; exact absurd horig (by simp)
        | some value' =>
          rw [hval] at horig
          cases horig
          simp only [hget, hval]
          exact ⟨by simp, by rw [sub_eq_add_neg]⟩
    · intro adj value hadj horig
      simp only [PartyMap.get_ofFun] at hadj horig ⊢
      cases hget : he'.effects.get party with
      | none => rw [hget] at hadj; exact absurd hadj (by simp)
      | some effect' =>
        rw [hget] at hadj
        cases hval : poll.parties.get party with
        | none => rw [hval] at hadj; exact absurd hadj (by simp)
        | some value' =>
          rw [hval] at hadj horig
          cases hadj
          cases horig
          simp only [hget, hval, Option.some.injEq]
          rw [sub_eq_add_neg]

/-- Concrete poll for the C3 witness. -/
def exPollC3 : ParsedPoll := ⟨"H", 0, pmApH (some 25) (some 15)⟩

/-- Concrete effect map for the C3 witness: house `H` has an `Ap` effect of 2. -/
def exEffectsC3 : String → Option HouseEffect :=
  fun h => if h = "H" then some ⟨1, pmAp (some 2)⟩ else none

/-- The adjusted poll `applyHouseEffects` produces from `exPollC3`. -/
def exAdjC3 : AdjustedPoll :=
  ⟨"H", 0, pmApH (some 23) (some 15), pmApH (some 25) (some 15), pmAp (some (-2))⟩

/-- Witness for C3: the adjusted poll of `exPollC3` carries adjustment `-2`
for `Ap` and corrected value `25 + -2`. -/
theorem C3_bias_correction_round_trip_witness :
    exAdjC3 ∈ applyHouseEffects [exPollC3] exEffectsC3
    ∧ exAdjC3.adjustments.get .Ap = some (-2)
    ∧ exAdjC3.parties.get .Ap = some (25 + -2) := by
  have hm : exAdjC3 ∈ applyHouseEffects [exPollC3] exEffectsC3 := by
    norm_num [applyHouseEffects, applyOne, exPollC3, exEffectsC3, exAdjC3, pmAp,
      pmApH, PartyMap.ofFun, PartyMap.get, AdjustedPoll.mk.injEq, PartyMap.mk.injEq]
  have h := (C3_bias_correction_round_trip [exPollC3] exEffectsC3 exAdjC3 hm .Ap).1
    ⟨1, pmAp (some 2)⟩ 2 25 (by rw [exAdjC3]; rfl) (by rfl) (by rw [exAdjC3]; rfl)
  exact ⟨hm, h.1, h.2⟩

/-! ## Claims about the weighted temporal aggregator (§4.5) -/

theorem le_foldl_max (l : List ℚ) (a : ℚ) : a ≤ l.foldl max a := by
  induction l generalizing a with
  | nil => exact le_refl a
  | cons b t ih => exact le_trans (le_max_left a b) (ih (max a b))

theorem foldl_max_eq_or_mem (l : List ℚ) (a : ℚ) :
    l.foldl max a = a ∨ l.foldl max a ∈ l := by
  induction l generalizing a with
  | nil => exact Or.inl rfl
  | cons b t ih =>
    rcases ih (max a b) with h | h
    · rcases le_total b a with hba | hab
      · rw [List.foldl_cons, h, max_eq_left hba]
        exact Or.inl rfl
      · rw [List.foldl_cons, h, max_eq_right hab]
        exact Or.inr (List.mem_cons_self b t)
    · exact Or.inr (List.mem_cons_of_mem b h)

/-- Some poll of a non-empty list attains the maximal timestamp
`latestTime`. -/
theorem exists_latest (p : AdjustedPoll) (ps : List AdjustedPoll) :
    ∃ q ∈ p :: ps, q.time = latestTime (p :: ps) := by
  rw [latestTime]
  rcases foldl_max_eq_or_mem (ps.map (fun q => q.time)) p.time with h | h
  · exact ⟨p, List.mem_cons_self p ps, h.symm⟩
  · obtain ⟨q, hq, hqt⟩ := List.mem_map.mp h
    exact ⟨q, List.mem_cons_of_mem p hq, hqt⟩

/-- **C9.** `calculateCurrentAverage` returns `null` exactly when its input is
empty: for a non-negative lookback, the poll attaining the latest timestamp
always passes the `timestamp >= latest - lookbackDays` selection, so the
"no recent polls" `null` branch is unreachable. -/
theorem C9_current_average_null_iff_empty (polls : List AdjustedPoll)
    (days : ℚ) (weighting : WeightingMethod) (halfLife : ℚ) (powHalf : ℚ → ℚ)
    (hd : 0 ≤ days) :
    calculateCurrentAverage polls days weighting halfLife powHalf = none ↔
      polls = [] := by
  cases polls with
  | nil => simp [calculateCurrentAverage]
  | cons p ps =>
    simp only [List.cons_ne_nil, iff_false]
    obtain ⟨q, hq, hqt⟩ := exists_latest p ps
    have hsel : q ∈ (p :: ps).filter
        (fun poll => latestTime (p :: ps) - days * dayMs ≤ poll.time) := by
      rw [List.mem_filter]
      refine ⟨hq, ?_⟩
      rw [hqt]
      have : (0 : ℚ) ≤ days * dayMs :=
        mul_nonneg hd (by rw [dayMs]; norm_num)
      simp only [decide_eq_true_eq]
      linarith
    rw [calculateCurrentAverage]
    have hlen : ((p :: ps).filter
        (fun poll => latestTime (p :: ps) - days * dayMs ≤ poll.time)).length ≠ 0 :=
      Nat.not_eq_zero_of_lt (List.length_pos.mpr (List.ne_nil_of_mem hsel))
    simp only [List.length_cons, Nat.succ_ne_zero, if_neg, if_false]
    rw [if_neg hlen]
    simp

/-- Shape of a non-`null` `calculateCurrentAverage` result: the average over
the lookback selection, as of the latest poll timestamp. -/
theorem calculateCurrentAverage_eq_some {polls : List AdjustedPoll} {days : ℚ}
    {weighting : WeightingMethod} {halfLife : ℚ} {powHalf : ℚ → ℚ}
    {avg : PollingAverage}
    (h : calculateCurrentAverage polls days weighting halfLife powHalf = some avg) :
    avg = calculateAverageForPolls
      (polls.filter (fun poll => latestTime polls - days * dayMs ≤ poll.time))
      (latestTime polls) weighting days halfLife powHalf := by
  rw [calculateCurrentAverage] at h
  by_cases h0 : polls.length = 0
  · rw [if_pos h0] at h
    exact absurd h (by simp)
  · rw [if_neg h0] at h
    by_cases h1 : (polls.filter
        (fun poll => latestTime polls - days * dayMs ≤ poll.time)).length = 0
    · rw [if_pos h1] at h
      exact absurd h (by simp)
    · rw [if_neg h1, Option.some.injEq] at h
      exact h.symm

theorem filterMap_map_pair_one (values : List (Option ℚ)) :
    values.filterMap (fun v => v.map (fun x => (x, (1 : ℚ)))) =
      (values.filterMap id).map (fun x => (x, (1 : ℚ))) := by
  induction values with
  | nil => rfl
  | cons v t ih => cases v <;> simp [ih]

theorem sum_map_one {α : Type} (l : List α) :
    (l.map (fun _ => (1 : ℚ))).sum = l.length := by
  induction l with
  | nil => rfl
  | cons x t ih => simp [ih]; ring

/-- With every weight equal to 1, the weighted per-party average degenerates
to the plain average of the defined values. -/
theorem partyWeightedAverage_map_one (values : List (Option ℚ)) :
    partyWeightedAverage (values.map (fun v => (v, (1 : ℚ)))) =
      averageDefined values := by
  rw [partyWeightedAverage, averageDefined]
  simp only [List.filterMap_map]
  have hcomp : ((fun item : Option ℚ × ℚ => item.1.map (fun v => (v, item.2))) ∘
      (fun v : Option ℚ => (v, (1 : ℚ)))) =
      fun v : Option ℚ => v.map (fun x => (x, (1 : ℚ))) := rfl
  rw [hcomp, filterMap_map_pair_one]
  simp only [List.length_map, List.map_map]
  have h1 : ((fun iv : ℚ × ℚ => iv.1 * iv.2) ∘ (fun x : ℚ => (x, (1 : ℚ)))) =
      fun x : ℚ => x * 1 := rfl
  have h2 : ((fun iv : ℚ × ℚ => iv.2) ∘ (fun x : ℚ => (x, (1 : ℚ)))) =
      fun _ : ℚ => (1 : ℚ) := rfl
  rw [h1, h2, sum_map_one]
  simp [mul_one]

/-- **C4.** Whenever `calculateCurrentAverage` is not `null`, each category's
estimate is the weight-normalized average `Σ(value·weight) / Σ(weight)` over
exactly the selected polls (`timestamp >= latest - lookbackDays`, with `latest`
the maximum input timestamp) that define that category, each weighted by its
own age; and with uniform (`'none'`) weighting this is the arithmetic mean of
the defined values. -/
theorem C4_aggregator_weighted_mean (polls : List AdjustedPoll) (days : ℚ)
    (weighting : WeightingMethod) (halfLife : ℚ) (powHalf : ℚ → ℚ)
    (avg : PollingAverage) (party : PartyName)
    (havg : calculateCurrentAverage polls days weighting halfLife powHalf = some avg) :
    avg.parties.get party =
      partyWeightedAverage
        ((polls.filter (fun q => latestTime polls - days * dayMs ≤ q.time)).map
          (fun q => (q.parties.get party,
            calculateWeight ((latestTime polls - q.time) / dayMs) weighting days
              halfLife powHalf)))
    ∧ (weighting = .uniform →
        avg.parties.get party =
          averageDefined
            ((polls.filter (fun q => latestTime polls - days * dayMs ≤ q.time)).map
              (fun q => q.parties.get party))) := by
  have hshape := calculateCurrentAverage_eq_some havg
  have hmain : avg.parties.get party =
      partyWeightedAverage
        ((polls.filter (fun q => latestTime polls - days * dayMs ≤ q.time)).map
          (fun q => (q.parties.get party,
            calculateWeight ((latestTime polls - q.time) / dayMs) weighting days
              halfLife powHalf))) := by
    rw [hshape, calculateAverageForPolls, PartyMap.get_ofFun, List.map_map]
    rfl
  refine ⟨hmain, ?_⟩
  intro hw
  subst hw
  rw [hmain]
  have hone : (fun q : AdjustedPoll => (q.parties.get party,
      calculateWeight ((latestTime polls - q.time) / dayMs) .uniform days
        halfLife powHalf)) =
      (fun v : Option ℚ => (v, (1 : ℚ))) ∘ (fun q : AdjustedPoll => q.parties.get party) := rfl
  rw [hone, ← List.map_map, partyWeightedAverage_map_one]

/-- Part of the concrete aggregator scenario: three corrected polls on
consecutive days with `Ap` values 25, 27 and 23. -/
def exAvgPolls : List AdjustedPoll :=
  [⟨"H1", 0, pmAp (some 25), pmAp (some 26), pmAp (some (-1))⟩,
   ⟨"H2", dayMs, pmAp (some 27), pmAp (some 28), pmAp (some (-1))⟩,
   ⟨"H3", 2 * dayMs, pmAp (some 23), pmAp (some 24), pmAp (some (-1))⟩]

/-- The aggregate that `calculateCurrentAverage` produces on `exAvgPolls`. -/
def exAvgC4 : PollingAverage := ⟨2 * dayMs, 3, pmAp (some 25), ["H1", "H2", "H3"]⟩

/-- Witness for C4: three uniform-weighted polls with `Ap` values 25, 27, 23
within the lookback window average to exactly 25. -/
theorem C4_aggregator_weighted_mean_witness :
    calculateCurrentAverage exAvgPolls 14 .uniform 7 oneWeight = some exAvgC4
    ∧ exAvgC4.parties.get .Ap = some 25 := by
  have hsome : calculateCurrentAverage exAvgPolls 14 .uniform 7 oneWeight =
      some exAvgC4 := by
    norm_num [calculateCurrentAverage, calculateAverageForPolls, latestTime,
      exAvgPolls, exAvgC4, partyWeightedAverage, calculateWeight, uniqueFirst,
      pmAp, PartyMap.ofFun, PartyMap.get, dayMs, List.filter, List.foldl,
      List.filterMap, PollingAverage.mk.injEq, PartyMap.mk.injEq]
    decide
  have h := (C4_aggregator_weighted_mean exAvgPolls 14 .uniform 7 oneWeight
    exAvgC4 .Ap hsome).2 rfl
  refine ⟨hsome, h.trans ?_⟩
  norm_num [averageDefined, exAvgPolls, latestTime, dayMs, List.filter,
    List.filterMap, List.foldl, pmAp, PartyMap.ofFun, PartyMap.get]

/-- Witness for C9: on the three-poll example the aggregator is not `null`. -/
theorem C9_current_average_null_iff_empty_witness :
    calculateCurrentAverage exAvgPolls 14 .uniform 7 oneWeight ≠ none := fun hn =>
  absurd ((C9_current_average_null_iff_empty exAvgPolls 14 .uniform 7 oneWeight
    (by norm_num)).mp hn) (by simp [exAvgPolls])

/-- **C7.** The aggregator's per-observation weight is 1 for `'none'`
(`uniform`), `max(0, (lookbackDays - ageDays)/lookbackDays)` for `'linear'`,
`0.5 ^ (ageDays/halfLife)` (i.e. the `Math.pow(0.5, ·)` primitive applied to
`ageDays/halfLife`) for `'exponential'`, and the square of the linear weight
for `'quadratic'`. -/
theorem C7_weight_formulas (pollAgeDays maxDays halfLife : ℚ) (powHalf : ℚ → ℚ) :
    calculateWeight pollAgeDays .uniform maxDays halfLife powHalf = 1
    ∧ calculateWeight pollAgeDays .linear maxDays halfLife powHalf =
        max 0 ((maxDays - pollAgeDays) / maxDays)
    ∧ calculateWeight pollAgeDays .exponential maxDays halfLife powHalf =
        powHalf (pollAgeDays / halfLife)
    ∧ calculateWeight pollAgeDays .quadratic maxDays halfLife powHalf =
        (calculateWeight pollAgeDays .linear maxDays halfLife powHalf) ^ 2 :=
  ⟨rfl, rfl, rfl, rfl⟩

/-- Polls refuting C8: with `'linear'` weighting and a 14-day lookback, the
second poll sits exactly at the lookback boundary (weight 0) and is the only
one defining `Ap`. -/
def exC8Polls : List AdjustedPoll :=
  [⟨"H1", 14 * dayMs, pmApH none (some 10), pmApH none (some 10), pmAp none⟩,
   ⟨"H2", 0, pmApH (some 20) (some 12), pmApH (some 20) (some 12), pmAp none⟩]

/-- The (value, weight) pairs contributing to the `Ap` average of
`exC8Polls` under `'linear'` weighting, exactly as `calculateAverageForPolls`
builds them. -/
def exC8ApContributing : List (ℚ × ℚ) :=
  ((exC8Polls.filter (fun q => latestTime exC8Polls - 14 * dayMs ≤ q.time)).map
    (fun q => (q.parties.get .Ap,
      calculateWeight ((latestTime exC8Polls - q.time) / dayMs) .linear 14 7
        oneWeight))).filterMap
    (fun item => item.1.map (fun v => (v, item.2)))

/-- Counterexample to C8 as stated: under `'linear'` weighting the aggregator
returns a non-`null` result on `exC8Polls`, the `Ap` category has a
contributing selected observation, and yet the sum of the weights in its
denominator is 0, not strictly positive. -/
theorem C8_counterexample_linear_zero_weight :
    calculateCurrentAverage exC8Polls 14 .linear 7 oneWeight ≠ none
    ∧ exC8ApContributing ≠ []
    ∧ ¬ 0 < (exC8ApContributing.map (fun iv => iv.2)).sum := by
  refine ⟨?_, ?_, ?_⟩
  · intro h
    norm_num [calculateCurrentAverage, latestTime, exC8Polls, dayMs,
      List.filter, List.foldl] at h
    exact Option.some_ne_none _ h
  · norm_num [exC8ApContributing, exC8Polls, latestTime, calculateWeight,
      dayMs, List.filter, List.foldl, List.filterMap, pmAp, pmApH,
      PartyMap.ofFun, PartyMap.get]
  · norm_num [exC8ApContributing, exC8Polls, latestTime, calculateWeight,
      dayMs, List.filter, List.foldl, List.filterMap, pmAp, pmApH,
      PartyMap.ofFun, PartyMap.get]

/-- **C8 (amended).** For the weighting schemes whose weights are always
strictly positive — `'none'` (uniform), and `'exponential'` provided the
`Math.pow(0.5, ·)` primitive only takes positive values (true of every finite
exponent) — every category with at least one contributing selected observation
has a strictly positive weight sum in the denominator of its average.  For
`'linear'` and `'quadratic'` this fails: an observation exactly at the
lookback boundary carries weight 0 (see the counterexample). -/
theorem C8_amended_positive_weight_sums (polls : List AdjustedPoll) (days : ℚ)
    (weighting : WeightingMethod) (halfLife : ℚ) (powHalf : ℚ → ℚ)
    (avg : PollingAverage) (party : PartyName)
    (hmethod : weighting = .uniform ∨
      (weighting = .exponential ∧ ∀ x, 0 < powHalf x))
    (havg : calculateCurrentAverage polls days weighting halfLife powHalf = some avg)
    (hne : ((polls.filter (fun q => latestTime polls - days * dayMs ≤ q.time)).map
        (fun q => (q.parties.get party,
          calculateWeight ((latestTime polls - q.time) / dayMs) weighting days
            halfLife powHalf))).filterMap
        (fun item => item.1.map (fun v => (v, item.2))) ≠ []) :
    0 < ((((polls.filter (fun q => latestTime polls - days * dayMs ≤ q.time)).map
        (fun q => (q.parties.get party,
          calculateWeight ((latestTime polls - q.time) / dayMs) weighting days
            halfLife powHalf))).filterMap
        (fun item => item.1.map (fun v => (v, item.2)))).map
        (fun iv => iv.2)).sum := by
  apply List.sum_pos
  · intro w hw
    obtain ⟨iv, hiv, rfl⟩ := List.mem_map.mp hw
    obtain ⟨item, hitem, hg⟩ := List.mem_filterMap.mp hiv
    obtain ⟨q, hq, rfl⟩ := List.mem_map.mp hitem
    obtain ⟨v, _, hv⟩ := Option.map_eq_some'.mp hg
    have hsnd : iv.2 = calculateWeight ((latestTime polls - q.time) / dayMs)
        weighting days halfLife powHalf := by
      rw [← hv]
    rw [hsnd]
    rcases hmethod with hm | ⟨hm, hpos⟩
    · subst hm
      norm_num [calculateWeight]
    · subst hm
      exact hpos _
  · intro hcon
    exact hne (List.map_eq_nil_iff.mp hcon)

/-- Single-poll example for the C8 witness. -/
def exC8W : List AdjustedPoll :=
  [⟨"H", 0, pmAp (some 25), pmAp (some 25), pmAp none⟩]

/-- Witness for the amended C8: with uniform weighting on a single poll the
`Ap` weight sum is strictly positive. -/
theorem C8_amended_positive_weight_sums_witness :
    ((exC8W.filter (fun q => latestTime exC8W - 14 * dayMs ≤ q.time)).map
        (fun q => (q.parties.get PartyName.Ap,
          calculateWeight ((latestTime exC8W - q.time) / dayMs) .uniform 14
            7 oneWeight))).filterMap
        (fun item => item.1.map (fun v => (v, item.2))) ≠ []
    ∧ 0 < ((((exC8W.filter (fun q => latestTime exC8W - 14 * dayMs ≤ q.time)).map
        (fun q => (q.parties.get PartyName.Ap,
          calculateWeight ((latestTime exC8W - q.time) / dayMs) .uniform 14
            7 oneWeight))).filterMap
        (fun item => item.1.map (fun v => (v, item.2)))).map
        (fun iv => iv.2)).sum :=
  ⟨by norm_num [exC8W, latestTime, calculateWeight, dayMs, List.filter,
      List.filterMap, pmAp, PartyMap.ofFun, PartyMap.get],
   C8_amended_positive_weight_sums exC8W 14 .uniform 7 oneWeight
    ⟨0, 1, pmAp (some 25), ["H"]⟩ .Ap (Or.inl rfl)
    (by norm_num [calculateCurrentAverage, calculateAverageForPolls, exC8W,
      latestTime, calculateWeight, partyWeightedAverage, uniqueFirst, dayMs,
      List.filter, List.filterMap, List.foldl, pmAp, PartyMap.ofFun,
      PartyMap.get, PollingAverage.mk.injEq, PartyMap.mk.injEq])
    (by norm_num [exC8W, latestTime, calculateWeight, dayMs, List.filter,
      List.filterMap, pmAp, PartyMap.ofFun, PartyMap.get])⟩

/-! ## Claims about missing-value handling (§3 invariant) -/

theorem filterMap_id_filter_isSome (values : List (Option ℚ)) :
    (values.filter (fun v => v.isSome)).filterMap id = values.filterMap id := by
  induction values with
  | nil => rfl
  | cons v t ih => cases v <;> simp [ih]

/-- Dropping the undefined entries does not change `averageDefined`: a missing
value is excluded from both the numerator and the denominator. -/
theorem averageDefined_filter_isSome (values : List (Option ℚ)) :
    averageDefined values = averageDefined (values.filter (fun v => v.isSome)) := by
  rw [averageDefined, averageDefined, filterMap_id_filter_isSome]

theorem filterMap_pair_filter_isSome (items : List (Option ℚ × ℚ)) :
    (items.filter (fun item => item.1.isSome)).filterMap
        (fun item => item.1.map (fun v => (v, item.2))) =
      items.filterMap (fun item => item.1.map (fun v => (v, item.2))) := by
  induction items with
  | nil => rfl
  | cons item t ih => rcases item with ⟨v, w⟩; cases v <;> simp [ih]

/-- Dropping the pairs with undefined values does not change the weighted
per-party average of the aggregator. -/
theorem partyWeightedAverage_filter_isSome (items : List (Option ℚ × ℚ)) :
    partyWeightedAverage items =
      partyWeightedAverage (items.filter (fun item => item.1.isSome)) := by
  rw [partyWeightedAverage, partyWeightedAverage, filterMap_pair_filter_isSome]

/-- **C5 (amended).** In the rolling benchmark, in the per-source house-effect
aggregation (which averages the defined deviations with the same
`averageDefined` step), and in the weighted temporal aggregator, an
observation that lacks a value for a category is skipped for that category —
excluded from numerator and denominator alike, never treated as zero: removing
the non-contributing observations leaves each average unchanged.  The
time-decayed estimator's per-observation benchmark, by contrast, does not skip
a missing value (see the counterexample): the `NaN` it produces poisons that
category's sum. -/
theorem C5_amended_missing_values_skipped :
    (∀ (windowPolls : List ParsedPoll) (party : PartyName),
      (benchmarkAverages windowPolls).get party =
        (benchmarkAverages (windowPolls.filter
          (fun q => (q.parties.get party).isSome))).get party)
    ∧ (∀ values : List (Option ℚ),
        averageDefined values = averageDefined (values.filter (fun v => v.isSome)))
    ∧ (∀ items : List (Option ℚ × ℚ),
        partyWeightedAverage items =
          partyWeightedAverage (items.filter (fun item => item.1.isSome))) := by
  refine ⟨?_, averageDefined_filter_isSome, partyWeightedAverage_filter_isSome⟩
  intro windowPolls party
  rw [benchmarkAverages, benchmarkAverages, PartyMap.get_ofFun, PartyMap.get_ofFun]
  rw [averageDefined_filter_isSome]
  congr 1
  induction windowPolls with
  | nil => rfl
  | cons q t ih =>
    simp only [List.map_cons, List.filter_cons]
    by_cases hq : (q.parties.get party).isSome = true
    · rw [if_pos hq, if_pos hq, List.map_cons, ih]
    · rw [if_neg hq, if_neg hq, ih]

/-- Witness for the amended C5, instantiating each conjunct on a window
holding one poll with a defined `Hoyre` value and one without: each average
equals the one over the contributing polls alone. -/
theorem C5_amended_missing_values_skipped_witness :
    (benchmarkAverages [⟨"P", 0, pmApH (some 30) (some 12)⟩,
        ⟨"Q", 0, pmApH (some 28) none⟩]).get .Hoyre =
      (benchmarkAverages ([⟨"P", 0, pmApH (some 30) (some 12)⟩,
        ⟨"Q", 0, pmApH (some 28) none⟩].filter
          (fun q => (q.parties.get PartyName.Hoyre).isSome))).get .Hoyre
    ∧ averageDefined [some 12, none] =
        averageDefined ([some 12, none].filter (fun v => v.isSome))
    ∧ partyWeightedAverage [(some 12, 1), (none, 1)] =
        partyWeightedAverage ([(some 12, 1), (none, 1)].filter
          (fun item => item.1.isSome)) :=
  ⟨C5_amended_missing_values_skipped.1 _ .Hoyre,
   C5_amended_missing_values_skipped.2.1 _,
   C5_amended_missing_values_skipped.2.2 _⟩

/-- Target poll of the C5/C2 decayed-benchmark counterexamples. -/
def tC5 : ParsedPoll := ⟨"T", 0, pmApH (some 20) (some 10)⟩

/-- Polls for the C5 counterexample: both peers lie within 21 days of the
target; one defines `Hoyre`, the other does not. -/
def exC5 : List ParsedPoll :=
  [tC5, ⟨"P", dayMs, pmApH (some 30) (some 12)⟩,
   ⟨"Q", 2 * dayMs, pmApH (some 28) none⟩]

/-- Counterexample to C5 as stated: in the time-decayed estimator's
per-observation benchmark the observation lacking `Hoyre` is NOT skipped — the
benchmark and the resulting per-poll effect for `Hoyre` are `NaN` (`none`),
not the average `12` of the defined values in the window. -/
theorem C5_counterexample_decayed_benchmark_poisoned :
    (decayedBenchmark (decayedWindow 0 tC5 exC5 21)).get .Hoyre = none
    ∧ averageDefined ((decayedWindow 0 tC5 exC5 21).map
        (fun q => q.parties.get .Hoyre)) = some 12
    ∧ (calculatePollHouseEffect 0 tC5 exC5 21).get .Hoyre = none := by
  have hwin : decayedWindow 0 tC5 exC5 21 =
      [⟨"P", dayMs, pmApH (some 30) (some 12)⟩,
       ⟨"Q", 2 * dayMs, pmApH (some 28) none⟩] := by
    norm_num [decayedWindow, exC5, tC5, dayMs, List.enum, List.enumFrom,
      List.filter]
  refine ⟨?_, ?_, ?_⟩
  · rw [hwin]
    norm_num [decayedBenchmark, jsAdd, pmApH, PartyMap.ofFun, PartyMap.get,
      List.foldl]
  · rw [hwin]
    norm_num [averageDefined, pmApH, PartyMap.ofFun, PartyMap.get,
      List.filterMap]
  · rw [calculatePollHouseEffect, hwin]
    norm_num [decayedBenchmark, jsAdd, jsSub, tC5, pmApH, PartyMap.ofFun,
      PartyMap.get, List.foldl]

/-! ## Claims about the time-decayed estimator (§4.3) -/

theorem length_filter_enumFrom_house (l : List ParsedPoll) (house : String) :
    ∀ n : ℕ, ((l.enumFrom n).filter (fun ip => ip.2.house = house)).length =
      (l.filter (fun p => p.house = house)).length := by
  induction l with
  | nil => intro n; rfl
  | cons a t ih =>
    intro n
    simp only [List.enumFrom, List.filter_cons]
    by_cases h : a.house = house
    · simp [h, ih (n + 1)]
    · simp [h, ih (n + 1)]

theorem decayedEstimates_length (polls : List ParsedPoll) (w : ℚ → ℚ)
    (wd mr : ℚ) (house : String) :
    (decayedEstimates polls w wd mr house).length =
      (polls.filter (fun p => p.house = house)).length := by
  rw [decayedEstimates, List.length_map]
  exact length_filter_enumFrom_house polls house 0

theorem weight_one_of_mem_decayedEstimates {polls : List ParsedPoll}
    {wd mr : ℚ} {house : String} {e : Estimate}
    (h : e ∈ decayedEstimates polls oneWeight wd mr house) : e.weight = 1 := by
  rw [decayedEstimates] at h
  obtain ⟨ip, _, rfl⟩ := List.mem_map.mp h
  rfl

theorem foldl_jsAdd_weight_one (estimates : List Estimate)
    (hw : ∀ e ∈ estimates, e.weight = 1) (party : PartyName) (s : Option ℚ) :
    estimates.foldl
      (fun s e => jsAdd s ((e.estimate.get party).map (fun v => v * e.weight))) s =
      estimates.foldl (fun s e => jsAdd s (e.estimate.get party)) s := by
  induction estimates generalizing s with
  | nil => rfl
  | cons e t ih =>
    rw [List.foldl_cons, List.foldl_cons]
    have h1 : (e.estimate.get party).map (fun v => v * e.weight) =
        e.estimate.get party := by
      rw [hw e (List.mem_cons_self e t)]
      cases e.estimate.get party <;> simp
    rw [h1]
    exact ih (fun x hx => hw x (List.mem_cons_of_mem e hx)) _

theorem sum_weights_one (estimates : List Estimate)
    (hw : ∀ e ∈ estimates, e.weight = 1) :
    (estimates.map (fun e => e.weight)).sum = estimates.length := by
  rw [List.map_congr_left hw, sum_map_one]

/-- Shape of a present `calculateTimeDecayedHouseEffects` entry. -/
theorem decayed_some_shape {polls : List ParsedPoll} {w : ℚ → ℚ} {wd : ℚ}
    {house : String} {e : EnhancedHouseEffect}
    (h : calculateTimeDecayedHouseEffects polls w wd house = some e) :
    e = { parties := (aggregateWithDecay
            (decayedEstimates polls w wd (mostRecentTime polls) house)).parties
          pollCount := (decayedEstimates polls w wd (mostRecentTime polls) house).length
          effectiveAge := (aggregateWithDecay
            (decayedEstimates polls w wd (mostRecentTime polls) house)).effectiveAge
          totalWeight := (aggregateWithDecay
            (decayedEstimates polls w wd (mostRecentTime polls) house)).totalWeight }
      ∧ (decayedEstimates polls w wd (mostRecentTime polls) house).length ≠ 0 := by
  rw [calculateTimeDecayedHouseEffects] at h
  by_cases hz : (decayedEstimates polls w wd (mostRecentTime polls) house).length = 0
  · rw [if_pos hz] at h
    exact absurd h (by simp)
  · rw [if_neg hz] at h
    exact ⟨((Option.some.injEq _ _).mp h).symm, hz⟩

/-- Shape of a present `calculateHouseEffects` entry. -/
theorem houseEffects_some_shape {polls : List ParsedPoll} {house : String}
    {he : HouseEffect} (h : calculateHouseEffects polls house = some he) :
    he = { pollCount := (polls.filter (fun p => p.house = house)).length
           effects := PartyMap.ofFun fun party => averageDefined
             (((polls.filter (fun p => p.house = house)).map
               (fun poll => pollDeviations poll
                 (calculateBenchmarkForPoll poll polls))).map
               (fun d => d.get party)) }
      ∧ (polls.filter (fun p => p.house = house)).length ≠ 0 := by
  rw [calculateHouseEffects] at h
  by_cases hz : (polls.filter (fun p => p.house = house)).length = 0
  · rw [if_pos hz] at h
    exact absurd h (by simp)
  · rw [if_neg hz] at h
    exact ⟨((Option.some.injEq _ _).mp h).symm, hz⟩

/-- **C2 (amended).** With `decayHalfLifeDays = Infinity` — i.e. every decay
weight equal to 1 (`oneWeight`) — the time-decayed estimator covers exactly
the same sources as `estimateEffects` (`calculateHouseEffects`) with the same
observation counts, its total weight equals the observation count, and each
per-category value degenerates to the plain unweighted mean (in the
`NaN`-propagating sense) of that source's per-poll estimates.  The estimator
is NOT extensionally equal to `estimateEffects` in this configuration, because
the per-poll benchmarks differ (fixed 21-day window excluding the target
versus the 14/28/42-day cascade including it) — see the counterexample. -/
theorem C2_amended_infinity_uniform_mean (polls : List ParsedPoll)
    (house : String) :
    ((calculateTimeDecayedHouseEffects polls oneWeight 21 house).isSome ↔
      (calculateHouseEffects polls house).isSome)
    ∧ (∀ e he, calculateTimeDecayedHouseEffects polls oneWeight 21 house = some e →
        calculateHouseEffects polls house = some he → e.pollCount = he.pollCount)
    ∧ (∀ e, calculateTimeDecayedHouseEffects polls oneWeight 21 house = some e →
        0 < e.pollCount
        ∧ e.totalWeight = (e.pollCount : ℚ)
        ∧ ∀ party, e.parties.get party =
            ((decayedEstimates polls oneWeight 21 (mostRecentTime polls) house).foldl
              (fun s est => jsAdd s (est.estimate.get party)) (some 0)).map
              (fun v => v / (e.pollCount : ℚ))) := by
  have hlen := decayedEstimates_length polls oneWeight 21 (mostRecentTime polls) house
  have hw : ∀ e ∈ decayedEstimates polls oneWeight 21 (mostRecentTime polls) house,
      e.weight = 1 := fun e he => weight_one_of_mem_decayedEstimates he
  refine ⟨?_, ?_, ?_⟩
  · rw [calculateTimeDecayedHouseEffects, calculateHouseEffects]
    by_cases hz : (polls.filter (fun p => p.house = house)).length = 0
    · rw [if_pos (hlen.trans hz), if_pos hz]
      exact Iff.rfl
    · rw [if_neg (fun hc => hz (hlen.symm.trans hc)), if_neg hz]
      simp
  · intro e he h1 h2
    have s1 := (decayed_some_shape h1).1
    have s2 := (houseEffects_some_shape h2).1
    rw [s1, s2]
    exact hlen
  · intro e h1
    obtain ⟨s1, hz⟩ := decayed_some_shape h1
    have htw : (aggregateWithDecay
        (decayedEstimates polls oneWeight 21 (mostRecentTime polls) house)).totalWeight =
        ((decayedEstimates polls oneWeight 21 (mostRecentTime polls) house).length : ℚ) := by
      rw [aggregateWithDecay]
      exact_mod_cast sum_weights_one _ hw
    have hpos : (0 : ℚ) <
        ((decayedEstimates polls oneWeight 21 (mostRecentTime polls) house).length : ℚ) := by
      exact_mod_cast Nat.pos_of_ne_zero hz
    refine ⟨?_, ?_, ?_⟩
    · rw [s1]
      exact Nat.pos_of_ne_zero hz
    · rw [s1]
      simpa using htw
    · intro party
      rw [s1]
      show (aggregateWithDecay _).parties.get party = _
      rw [aggregateWithDecay, PartyMap.get_ofFun]
      simp only
      rw [if_pos (by rw [sum_weights_one _ hw]; exact_mod_cast hpos)]
      rw [foldl_jsAdd_weight_one _ hw party]
      have hsum : ((decayedEstimates polls oneWeight 21 (mostRecentTime polls)
          house).map (fun e => e.weight)).sum =
          ((decayedEstimates polls oneWeight 21 (mostRecentTime polls) house).length : ℚ) := by
        exact_mod_cast sum_weights_one _ hw
      rw [hsum]

/-- Polls refuting C2 as an extensional equality: one house, three polls 20
days apart with `Ap` values 10, 20, 60. -/
def exC2 : List ParsedPoll :=
  [⟨"X", 0, pmAp (some 10)⟩, ⟨"X", 20 * dayMs, pmAp (some 20)⟩,
   ⟨"X", 40 * dayMs, pmAp (some 60)⟩]

set_option maxHeartbeats 4000000 in
/-- Counterexample to C2 as stated: on `exC2` with uniform (`Infinity`
half-life) weights, the decayed estimator's `Ap` effect for house `X` is 5
while `estimateEffects` gives 0, so the two house-effect maps are not equal. -/
theorem C2_counterexample_estimators_differ :
    ((calculateTimeDecayedHouseEffects exC2 oneWeight 21) "X").map
      (fun e => e.parties.get .Ap) = some (some 5)
    ∧ ((calculateHouseEffects exC2) "X").map
      (fun e => e.effects.get .Ap) = some (some 0)
    ∧ ((calculateTimeDecayedHouseEffects exC2 oneWeight 21) "X").map
      (fun e => e.parties.get .Ap) ≠
      ((calculateHouseEffects exC2) "X").map (fun e => e.effects.get .Ap) := by
  have h1 : ((calculateTimeDecayedHouseEffects exC2 oneWeight 21) "X").map
      (fun e => e.parties.get .Ap) = some (some 5) := by
    norm_num [calculateTimeDecayedHouseEffects, decayedEstimates, decayedWindow,
      decayedBenchmark, calculatePollHouseEffect, aggregateWithDecay,
      mostRecentTime, oneWeight, jsAdd, jsSub, exC2, dayMs, pmAp,
      PartyMap.ofFun, PartyMap.get, List.enum, List.enumFrom, List.filter,
      List.foldl]
  have h2 : ((calculateHouseEffects exC2) "X").map
      (fun e => e.effects.get .Ap) = some (some 0) := by
    norm_num [calculateHouseEffects, calculateBenchmarkForPoll,
      benchmarkSelection, withinWindow, benchmarkAverages, averageDefined,
      pollDeviations, exC2, dayMs, pmAp, PartyMap.ofFun, PartyMap.get,
      List.filter, List.filterMap, List.foldl]
  refine ⟨h1, h2, ?_⟩
  rw [h1, h2]
  norm_num

/-- Single poll for the C2 witness. -/
def exC2W : List ParsedPoll := [⟨"Y", 0, pmAp (some 10)⟩]

/-- The decayed estimator's entry for house `Y` on `exC2W` with uniform
weights: the lone poll is its own benchmark, so its `Ap` effect is 0. -/
def eC2W : EnhancedHouseEffect := ⟨pmAp (some 0), 1, 0, 1⟩

set_option maxHeartbeats 2000000 in
/-- Witness for the amended C2 on a one-poll list: the entry is present with
count 1, total weight 1, and `Ap` value equal to the unweighted mean of the
per-poll estimates. -/
theorem C2_amended_infinity_uniform_mean_witness :
    calculateTimeDecayedHouseEffects exC2W oneWeight 21 "Y" = some eC2W
    ∧ 0 < eC2W.pollCount
    ∧ eC2W.totalWeight = (eC2W.pollCount : ℚ)
    ∧ eC2W.parties.get .Ap =
        ((decayedEstimates exC2W oneWeight 21 (mostRecentTime exC2W) "Y").foldl
          (fun s est => jsAdd s (est.estimate.get .Ap)) (some 0)).map
          (fun v => v / (eC2W.pollCount : ℚ)) := by
  have hsome : calculateTimeDecayedHouseEffects exC2W oneWeight 21 "Y" =
      some eC2W := by
    norm_num [calculateTimeDecayedHouseEffects, decayedEstimates, decayedWindow,
      decayedBenchmark, calculatePollHouseEffect, aggregateWithDecay,
      mostRecentTime, oneWeight, jsAdd, jsSub, exC2W, eC2W, dayMs, pmAp,
      PartyMap.ofFun, PartyMap.get, List.enum, List.enumFrom, List.filter,
      List.foldl, EnhancedHouseEffect.mk.injEq, PartyMap.mk.injEq]
  have h := (C2_amended_infinity_uniform_mean exC2W "Y").2.2 eC2W hsome
  exact ⟨hsome, h.1, h.2.1, h.2.2 .Ap⟩

/-! ## Claims about the plain house-effect estimator (§4.2) -/

theorem withinWindow_perm {polls polls' : List ParsedPoll}
    (h : polls.Perm polls') (t w : ℚ) :
    (withinWindow t w polls).Perm (withinWindow t w polls') := h.filter _

theorem averageDefined_perm {v v' : List (Option ℚ)} (h : v.Perm v') :
    averageDefined v = averageDefined v' := by
  rw [averageDefined, averageDefined, (h.filterMap id).length_eq,
    (h.filterMap id).sum_eq]

theorem benchmarkAverages_perm {w w' : List ParsedPoll} (h : w.Perm w') :
    benchmarkAverages w = benchmarkAverages w' := by
  apply PartyMap.ext_get
  intro party
  rw [benchmarkAverages, benchmarkAverages, PartyMap.get_ofFun,
    PartyMap.get_ofFun]
  exact averageDefined_perm (h.map _)

theorem benchmarkSelection_perm {polls polls' : List ParsedPoll}
    (target : ParsedPoll) (h : polls.Perm polls') (wd : ℚ) (mp : ℕ) :
    (benchmarkSelection target polls wd mp).Perm
      (benchmarkSelection target polls' wd mp) := by
  simp only [benchmarkSelection]
  rw [(withinWindow_perm h target.time (wd * dayMs)).length_eq,
    (withinWindow_perm h target.time (28 * dayMs)).length_eq]
  split_ifs
  · exact withinWindow_perm h _ _
  · exact withinWindow_perm h _ _
  · exact withinWindow_perm h _ _

theorem calculateBenchmarkForPoll_perm {polls polls' : List ParsedPoll}
    (target : ParsedPoll) (h : polls.Perm polls') (wd : ℚ) (mp : ℕ) :
    calculateBenchmarkForPoll target polls wd mp =
      calculateBenchmarkForPoll target polls' wd mp := by
  rw [calculateBenchmarkForPoll, calculateBenchmarkForPoll,
    (benchmarkSelection_perm target h wd mp).length_eq]
  split_ifs
  · rfl
  · exact congrArg some (benchmarkAverages_perm (benchmarkSelection_perm target h wd mp))

/-- **C6.** `estimateEffects` (`calculateHouseEffects`) is order-independent:
permuting the input observation list leaves the house-effect map unchanged —
the same houses are present, with the same per-category effect values and the
same observation counts. -/
theorem C6_house_effects_order_independent (polls polls' : List ParsedPoll)
    (hperm : polls.Perm polls') (house : String) :
    calculateHouseEffects polls house = calculateHouseEffects polls' house := by
  have hbench : ∀ poll : ParsedPoll,
      calculateBenchmarkForPoll poll polls = calculateBenchmarkForPoll poll polls' :=
    fun poll => calculateBenchmarkForPoll_perm poll hperm 14 5
  have hfil : (polls.filter (fun p => p.house = house)).Perm
      (polls'.filter (fun p => p.house = house)) := hperm.filter _
  rw [calculateHouseEffects, calculateHouseEffects, hfil.length_eq]
  by_cases hz : (polls'.filter (fun p => p.house = house)).length = 0
  · rw [if_pos hz, if_pos hz]
  · rw [if_neg hz, if_neg hz]
    have hdev : (polls'.filter (fun p => p.house = house)).map
        (fun poll => pollDeviations poll (calculateBenchmarkForPoll poll polls')) =
        (polls'.filter (fun p => p.house = house)).map
        (fun poll => pollDeviations poll (calculateBenchmarkForPoll poll polls)) :=
      List.map_congr_left (fun poll _ => by rw [hbench poll])
    rw [hdev]
    have heff : (PartyMap.ofFun fun party => averageDefined
        (((polls.filter (fun p => p.house = house)).map
          (fun poll => pollDeviations poll (calculateBenchmarkForPoll poll polls))).map
          (fun d => d.get party))) =
        (PartyMap.ofFun fun party => averageDefined
        (((polls'.filter (fun p => p.house = house)).map
          (fun poll => pollDeviations poll (calculateBenchmarkForPoll poll polls))).map
          (fun d => d.get party))) := by
      apply PartyMap.ext_get
      intro party
      rw [PartyMap.get_ofFun, PartyMap.get_ofFun]
      exact averageDefined_perm ((hfil.map _).map _)
    rw [heff]

/-- Two polls from different houses, for the C6 witness. -/
def paC6 : ParsedPoll := ⟨"X", 0, pmAp (some 10)⟩

/-- Second poll for the C6 witness. -/
def pbC6 : ParsedPoll := ⟨"Y", dayMs, pmAp (some 20)⟩

/-- Witness for C6: swapping two polls leaves house `X`'s effect entry
unchanged. -/
theorem C6_house_effects_order_independent_witness :
    calculateHouseEffects [paC6, pbC6] "X" = calculateHouseEffects [pbC6, paC6] "X" :=
  C6_house_effects_order_independent [paC6, pbC6] [pbC6, paC6]
    (List.Perm.swap pbC6 paC6 []) "X"

end Valg
